import Mathlib

/-! Verification of the gc-agent client (src/gc-agent/src).  The development
shallowly embeds the pure decision logic of the React components: the
question-id marker scanner and lookup selection of handleGradeSubmissions
(components/Submissions.jsx), the merge of grading results into the
submissions list, the dual-channel authentication check of App.jsx, the
401 handler of auth.js, the total-marks preview of AssignmentModal
(components/Login.jsx), the per-index regeneration handlers of App.jsx and
the rubric guard of handleProceed (App.jsx). -/

namespace GCAgent

/-- Whitespace as stripped by JavaScript String.prototype.trim, restricted to
the ASCII whitespace characters (the trimmed inputs considered here contain no
Unicode space characters). -/
def isWs (c : Char) : Bool :=
  c == ' ' || c == '\t' || c == '\n' || c == '\r' || c == '\x0b' || c == '\x0c'

/-- Character-list version of JavaScript String.prototype.trim, as applied to
each captured marker token in handleGradeSubmissions. -/
def trimChars (l : List Char) : List Char :=
  ((l.dropWhile isWs).reverse.dropWhile isWs).reverse

/-- Does the character list start with the three characters i d colon, i.e.
the tail of the literal marker opener matched by the regex of
handleGradeSubmissions? -/
def hasIdColon : List Char → Bool
  | c1 :: c2 :: c3 :: _ => c1 == 'i' && c2 == 'd' && c3 == ':'
  | _ => false

/-- Split a character list at its first closing brace: the prefix before the
first closing brace (which therefore contains none) and the remainder after
it.  This is how the regex piece matching the token inside a marker stops: the
character class excludes the closing brace, so a match always ends at the
first closing brace after the opener. -/
def splitAtClose : List Char → Option (List Char × List Char)
  | [] => none
  | c :: cs =>
    if c = '}' then some ([], cs)
    else
      match splitAtClose cs with
      | some (t, r) => some (c :: t, r)
      | none => none

/-- One global regex scan as performed by
description.match over the marker pattern in handleGradeSubmissions
(components/Submissions.jsx, lines 196-209).  At each position the engine
matches: an opening brace, the literal i d colon, then at least one character
up to the first closing brace.  On a match it records the token between the
opener and that first closing brace and resumes after it; otherwise it
advances one character.  The fuel argument only bounds the recursion; the
input length is always sufficient fuel. -/
def scanTokensAux : Nat → List Char → List (List Char)
  | 0, _ => []
  | _ + 1, [] => []
  | fuel + 1, c :: cs =>
    if c = '{' ∧ hasIdColon cs then
      match splitAtClose (cs.drop 3) with
      | some (t, r) => if t = [] then scanTokensAux fuel cs else t :: scanTokensAux fuel r
      | none => scanTokensAux fuel cs
    else scanTokensAux fuel cs

/-- All marker tokens of a description, in scan order. -/
def scanTokens (l : List Char) : List (List Char) :=
  scanTokensAux l.length l

/-- The marker text for one question id: opening brace, i d colon, the token,
closing brace.  This is the wire format embedded by the publisher and matched
by the regex of handleGradeSubmissions. -/
def mkMarker (t : List Char) : List Char :=
  '{' :: 'i' :: 'd' :: ':' :: (t ++ ['}'])

/-- The question-id extraction of handleGradeSubmissions
(components/Submissions.jsx, lines 196-209): a missing or empty description
(falsy in JavaScript) yields no ids; otherwise every regex match contributes
its captured token, trimmed. -/
def extractQuestionIds : Option (List Char) → List (List Char)
  | none => []
  | some d => if d.isEmpty then [] else (scanTokens d).map trimChars

/-- A description assembled from interleaved free text and markers: each pair
is a stretch of surrounding text followed by one marker token, with a final
stretch of text at the end. -/
def buildDesc : List (List Char × List Char) → List Char → List Char
  | [], epilog => epilog
  | (u, t) :: ps, epilog => u ++ (mkMarker t ++ buildDesc ps epilog)

/-- Which question lookup handleGradeSubmissions performs
(components/Submissions.jsx, lines 211-246): the by-id POST when at least one
marker id was extracted, otherwise the fuzzy title-based GET. -/
inductive LookupStrategy where
  | byIds : List (List Char) → LookupStrategy
  | fuzzyTitle : List Char → LookupStrategy
deriving DecidableEq

/-- The lookup selection of handleGradeSubmissions: extract ids from the
assignment description, then branch on questionIds.length being positive. -/
def questionLookup (description : Option (List Char)) (title : List Char) :
    LookupStrategy :=
  let questionIds := extractQuestionIds description
  if questionIds.length > 0 then .byIds questionIds else .fuzzyTitle title

/-- The remote observations checkAuthStatus (App.jsx, lines 33-107) can make:
whether the cookie check response is ok and reports logged_in, the stored
session token if any, and whether the token verification response is ok and
reports logged_in. -/
structure AuthEnv where
  cookieOk : Bool
  cookieLoggedIn : Bool
  storedToken : Option (List Char)
  tokenOk : Bool
  tokenLoggedIn : Bool

/-- The outcome of checkAuthStatus: the authentication flag it sets, the
session token left in local storage, and whether the token-verification
endpoint was consulted at all. -/
structure AuthOutcome where
  isAuthenticated : Bool
  tokenAfter : Option (List Char)
  tokenConsulted : Bool
deriving DecidableEq

/-- checkAuthStatus (App.jsx, lines 33-107): first the cookie check; if its
response is ok and reports logged_in, authenticated and done.  Otherwise, if a
session token is stored, verify it; an ok response reporting logged_in
authenticates, anything else removes the token from local storage.  With no
stored token the caller stays anonymous. -/
def checkAuthStatus (e : AuthEnv) : AuthOutcome :=
  if e.cookieOk ∧ e.cookieLoggedIn then
    { isAuthenticated := true, tokenAfter := e.storedToken, tokenConsulted := false }
  else
    match e.storedToken with
    | some tok =>
      if e.tokenOk ∧ e.tokenLoggedIn then
        { isAuthenticated := true, tokenAfter := some tok, tokenConsulted := true }
      else
        { isAuthenticated := false, tokenAfter := none, tokenConsulted := true }
    | none =>
      { isAuthenticated := false, tokenAfter := none, tokenConsulted := false }

/-- One entry of result.results returned by the grading endpoint: the id of
the submission it belongs to and its grading payload. -/
structure GradeEntry (α : Type) where
  submission_id : List Char
  grading_result : α
deriving DecidableEq

/-- A submission row as held in the component state: its id, its other fields
(opaque here), and the AI-grade fields written by the merge. -/
structure Submission (α : Type) where
  id : List Char
  payload : List Char
  aiGrade : Option α
  isGraded : Bool
deriving DecidableEq

/-- The merge of grading results into the submissions list
(components/Submissions.jsx, lines 280-293): every submission whose id occurs
as a submission_id in the results receives that entry's grading_result as its
aiGrade and is flagged graded; all other submissions are returned unchanged. -/
def applyGradeResults {α : Type} (results : List (GradeEntry α))
    (subs : List (Submission α)) : List (Submission α) :=
  subs.map fun submission =>
    match results.find? (fun r => r.submission_id == submission.id) with
    | some gradeResult =>
      { submission with aiGrade := some gradeResult.grading_result, isGraded := true }
    | none => submission

/-- The question-resolution response consumed by handleGradeSubmissions: a
status string and an optional list of questions (none models a missing or
null questions field). -/
structure QuestionsResponse (α : Type) where
  status : String
  questions : Option (List α)
deriving DecidableEq

/-- What handleGradeSubmissions does right after question resolution
(components/Submissions.jsx, lines 248-262): either it throws a user-facing
error, or it issues the grading POST with the resolved questions. -/
inductive GradeStep (α : Type) where
  | errorMsg : String → GradeStep α
  | gradeRequest : List α → GradeStep α
deriving DecidableEq

/-- The error message thrown when no questions could be resolved. -/
def noQuestionsMsg : String :=
  "No questions found for this assignment. Make sure the assignment was created through this system."

/-- The check at line 248 of components/Submissions.jsx: a status other than
success, a missing questions field, or an empty questions list throws; only
otherwise is the grading endpoint invoked, with the resolved questions. -/
def gradeSubmissionsStep {α : Type} (qd : QuestionsResponse α) : GradeStep α :=
  if qd.status ≠ "success" then .errorMsg noQuestionsMsg
  else
    match qd.questions with
    | none => .errorMsg noQuestionsMsg
    | some qs => if qs.length = 0 then .errorMsg noQuestionsMsg else .gradeRequest qs

/-- A question as rendered by AssignmentModal: its text and its marks field,
which may be absent (falsy) in which case the display counts it as zero. -/
structure PublishQuestion where
  question : String
  marks : Option Nat
deriving DecidableEq

/-- The Total Marks figure of AssignmentModal (components/Login.jsx,
lines 216-229): questions.reduce of sum plus marks-or-zero, starting at 0. -/
def totalMarks (qs : List PublishQuestion) : Nat :=
  qs.foldl (fun sum q => sum + q.marks.getD 0) 0

/-- The browser-visible state touched by handleAuthError: the local storage
contents and the current location. -/
structure ClientState where
  storage : List (String × String)
  href : String
deriving DecidableEq

/-- An HTTP response as seen by handleAuthError and authFetch. -/
structure HttpResponse where
  status : Nat
  body : String
deriving DecidableEq

/-- handleAuthError (auth.js, lines 5-14): on a 401 response it clears local
storage, redirects to the root login page and returns true; on anything else
it returns false and leaves the state alone. -/
def handleAuthError (resp : HttpResponse) (st : ClientState) : Bool × ClientState :=
  if resp.status = 401 then (true, { storage := [], href := "/" })
  else (false, st)

/-- authFetch (auth.js, lines 17-29): runs handleAuthError on the response and
throws Session expired when it reports a 401, otherwise returns the response
unchanged. -/
def authFetch (resp : HttpResponse) (st : ClientState) :
    Except String (HttpResponse × ClientState) :=
  let r := handleAuthError resp st
  if r.1 then .error "Session expired" else .ok (resp, r.2)

/-- A generated question as held in assignmentQuestions state (App.jsx): text,
marks, the rubric list (null until generated) and the per-item loading flag. -/
structure GenQuestion where
  question : String
  marks : Nat
  rubrics : Option (List String)
  loading : Bool
deriving DecidableEq

/-- Replace the element at one index by applying a function, leaving every
other position untouched; out-of-range indices change nothing. -/
def updateAt {α : Type} : Nat → (α → α) → List α → List α
  | _, _, [] => []
  | 0, f, x :: xs => f x :: xs
  | n + 1, f, x :: xs => x :: updateAt n f xs

/-- Set the loading flag of one question. -/
def setLoading (b : Bool) (q : GenQuestion) : GenQuestion :=
  { q with loading := b }

/-- handleGenerateAgain with a defined index (App.jsx, lines 286-311), as a
function of the regeneration call's outcome: the entry is first flagged
loading; a successful call replaces it by the regenerated question with the
flag cleared, a failed call only clears the flag again. -/
def handleGenerateAgainAt (qs : List GenQuestion) (i : Nat)
    (res : Option GenQuestion) : List GenQuestion :=
  let qs1 := updateAt i (setLoading true) qs
  match res with
  | some newQ => updateAt i (fun _ => setLoading false newQ) qs1
  | none => updateAt i (setLoading false) qs1

/-- handleCustomQuestionSubmit (App.jsx, lines 344-376), same shape: flag the
entry loading; a response carrying a question replaces the entry with the
flag cleared, any failure or invalid response only clears the flag. -/
def handleCustomQuestionSubmitAt (qs : List GenQuestion) (i : Nat)
    (res : Option GenQuestion) : List GenQuestion :=
  let qs1 := updateAt i (setLoading true) qs
  match res with
  | some newQ => updateAt i (fun _ => setLoading false newQ) qs1
  | none => updateAt i (setLoading false) qs1

/-- The guard of handleProceed (App.jsx, lines 378-399):
every question must have a rubrics field that is truthy and of positive
length. -/
def allHaveRubrics (qs : List GenQuestion) : Bool :=
  qs.all fun q =>
    match q.rubrics with
    | some rs => decide (rs.length > 0)
    | none => false

/-- The response of the store-questions endpoint as consumed by
handleProceed. -/
structure StoreResponse where
  ok : Bool
  status : String
  stored_questions : Option (List GenQuestion)
deriving DecidableEq

/-- The component state touched by handleProceed: the question list, the
questions staged for the assignment dialog, and whether that dialog is
open. -/
structure PublishState where
  assignmentQuestions : List GenQuestion
  questionsToAssign : List GenQuestion
  assignmentModalOpen : Bool
deriving DecidableEq

/-- handleProceed (App.jsx, lines 378-399), returning the body of the
store-questions request if one was issued together with the state afterwards.
When some question lacks a non-empty rubric list it alerts and returns before
any request, leaving all state as it was.  Otherwise it POSTs the questions to
store-questions; a non-ok response or a body without success status and
stored_questions is caught with state unchanged, and on success the stored
questions replace the list, are staged for assignment, and the dialog
opens. -/
def handleProceed (st : PublishState) (resp : StoreResponse) :
    Option (List GenQuestion) × PublishState :=
  if allHaveRubrics st.assignmentQuestions then
    if resp.ok then
      match resp.stored_questions with
      | some stored =>
        if resp.status = "success" then
          (some st.assignmentQuestions,
            { assignmentQuestions := stored, questionsToAssign := stored,
              assignmentModalOpen := true })
        else (some st.assignmentQuestions, st)
      | none => (some st.assignmentQuestions, st)
    else (some st.assignmentQuestions, st)
  else (none, st)

/-! Helper lemmas about the marker scanner. -/

theorem splitAtClose_spec : ∀ {l t r : List Char}, splitAtClose l = some (t, r) →
    l = t ++ '}' :: r ∧ '}' ∉ t := by
  intro l
  induction l with
  | nil => intro t r h; simp [splitAtClose] at h
  | cons c cs ih =>
    intro t r h
    by_cases hc : c = '}'
    · subst hc
      simp [splitAtClose] at h
      obtain ⟨ht, hr⟩ := h
      subst ht; subst hr
      simp
    · simp only [splitAtClose, if_neg hc] at h
      cases hsp : splitAtClose cs with
      | none => rw [hsp] at h; simp at h
      | some pr =>
        obtain ⟨t1, r1⟩ := pr
        rw [hsp] at h
        simp only [Option.some_inj, Prod.mk.injEq] at h
        obtain ⟨ht, hr⟩ := h
        obtain ⟨he, hn⟩ := ih hsp
        subst ht; subst hr
        constructor
        · rw [he]; rfl
        · intro hmem
          rcases List.mem_cons.mp hmem with h1 | h2
          · exact hc h1.symm
          · exact hn h2

theorem splitAtClose_append {t r : List Char} (h : '}' ∉ t) :
    splitAtClose (t ++ '}' :: r) = some (t, r) := by
  induction t with
  | nil => simp [splitAtClose]
  | cons c cs ih =>
    have hc : c ≠ '}' := fun e => h (e ▸ List.mem_cons_self c cs)
    have hcs : '}' ∉ cs := fun hm => h (List.mem_cons_of_mem c hm)
    simp [splitAtClose, hc, ih hcs]

theorem scanTokensAux_nil : ∀ n, scanTokensAux n [] = []
  | 0 => rfl
  | _ + 1 => rfl

theorem scanTokensAux_fuel : ∀ n m (l : List Char), l.length ≤ n → l.length ≤ m →
    scanTokensAux n l = scanTokensAux m l := by
  intro n
  induction n with
  | zero =>
    intro m l hn _
    have : l = [] := List.length_eq_zero.mp (Nat.le_zero.mp hn)
    subst this
    rw [scanTokensAux_nil, scanTokensAux_nil]
  | succ n ih =>
    intro m l hn hm
    match l with
    | [] => rw [scanTokensAux_nil, scanTokensAux_nil]
    | c :: cs =>
      match m with
      | 0 => simp at hm
      | m + 1 =>
        have hcs : cs.length ≤ n := by simpa using hn
        have hcs' : cs.length ≤ m := by simpa using hm
        simp only [scanTokensAux]
        by_cases hcond : c = '{' ∧ hasIdColon cs
        · rw [if_pos hcond, if_pos hcond]
          cases hsp : splitAtClose (cs.drop 3) with
          | none => exact ih m cs hcs hcs'
          | some pr =>
            obtain ⟨t, r⟩ := pr
            by_cases ht : t = []
            · simp [ht, ih m cs hcs hcs']
            · have hlen : cs.drop 3 = t ++ '}' :: r := (splitAtClose_spec hsp).1
              have hr : r.length ≤ cs.length - 3 := by
                have := congrArg List.length hlen
                simp at this
                omega
              have hr1 : r.length ≤ n := by omega
              have hr2 : r.length ≤ m := by omega
              simp [ht, ih m r hr1 hr2]
        · rw [if_neg hcond, if_neg hcond]
          exact ih m cs hcs hcs'

theorem scanTokens_cons_skip {c : Char} {cs : List Char}
    (h : ¬(c = '{' ∧ hasIdColon cs)) : scanTokens (c :: cs) = scanTokens cs := by
  simp only [scanTokens, List.length_cons, scanTokensAux, if_neg h]

theorem scanTokens_cons_noClose {c : Char} {cs : List Char}
    (h : splitAtClose (cs.drop 3) = none) : scanTokens (c :: cs) = scanTokens cs := by
  by_cases hcond : c = '{' ∧ hasIdColon cs
  · simp only [scanTokens, List.length_cons, scanTokensAux, if_pos hcond, h]
  · exact scanTokens_cons_skip hcond

theorem scanTokens_cons_emptyTok {c : Char} {cs r : List Char}
    (h : splitAtClose (cs.drop 3) = some ([], r)) :
    scanTokens (c :: cs) = scanTokens cs := by
  by_cases hcond : c = '{' ∧ hasIdColon cs
  · simp only [scanTokens, List.length_cons, scanTokensAux, if_pos hcond, h]
    simp
  · exact scanTokens_cons_skip hcond

theorem scanTokens_cons_marker {cs t r : List Char} (hid : hasIdColon cs = true)
    (h : splitAtClose (cs.drop 3) = some (t, r)) (ht : t ≠ []) :
    scanTokens ('{' :: cs) = t :: scanTokens r := by
  have hcond : '{' = '{' ∧ hasIdColon cs := ⟨rfl, hid⟩
  simp only [scanTokens, List.length_cons, scanTokensAux, if_pos hcond, h, if_neg ht]
  have hlen : cs.drop 3 = t ++ '}' :: r := (splitAtClose_spec h).1
  have hr : r.length ≤ cs.length := by
    have := congrArg List.length hlen
    simp at this
    omega
  rw [scanTokensAux_fuel cs.length r.length r hr (Nat.le_refl _)]
  simp [hid]

theorem hasIdColon_shape {cs : List Char} (h : hasIdColon cs = true) :
    cs = 'i' :: 'd' :: ':' :: cs.drop 3 := by
  match cs with
  | [] => simp [hasIdColon] at h
  | [_] => simp [hasIdColon] at h
  | [_, _] => simp [hasIdColon] at h
  | c1 :: c2 :: c3 :: rest =>
    simp only [hasIdColon, Bool.and_eq_true, beq_iff_eq] at h
    obtain ⟨⟨h1, h2⟩, h3⟩ := h
    subst h1; subst h2; subst h3
    rfl

theorem scanTokens_append_inert {u : List Char} (v : List Char) (h : '{' ∉ u) :
    scanTokens (u ++ v) = scanTokens v := by
  induction u with
  | nil => rfl
  | cons c cs ih =>
    have hc : c ≠ '{' := fun e => h (e ▸ List.mem_cons_self c cs)
    have hcs : '{' ∉ cs := fun hm => h (List.mem_cons_of_mem c hm)
    rw [List.cons_append, scanTokens_cons_skip (fun hh => hc hh.1), ih hcs]

theorem scanTokens_marker_append {t : List Char} (v : List Char) (ht : t ≠ [])
    (hb : '}' ∉ t) : scanTokens (mkMarker t ++ v) = t :: scanTokens v := by
  have he : mkMarker t ++ v = '{' :: ('i' :: 'd' :: ':' :: (t ++ '}' :: v)) := by
    simp [mkMarker]
  rw [he]
  have hid : hasIdColon ('i' :: 'd' :: ':' :: (t ++ '}' :: v)) = true := rfl
  have hdrop : ('i' :: 'd' :: ':' :: (t ++ '}' :: v)).drop 3 = t ++ '}' :: v := rfl
  exact scanTokens_cons_marker hid (by rw [hdrop]; exact splitAtClose_append hb) ht

theorem scanTokens_sound_aux : ∀ n (l : List Char), l.length ≤ n →
    ∀ x ∈ scanTokens l,
    ∃ pre post, l = pre ++ mkMarker x ++ post ∧ x ≠ [] ∧ '}' ∉ x := by
  intro n
  induction n with
  | zero =>
    intro l hl x hx
    have : l = [] := List.length_eq_zero.mp (Nat.le_zero.mp hl)
    subst this
    simp [scanTokens, scanTokensAux] at hx
  | succ n ih =>
    intro l hl x hx
    match l with
    | [] => simp [scanTokens, scanTokensAux] at hx
    | c :: cs =>
      have hcs : cs.length ≤ n := by simpa using hl
      by_cases hcond : c = '{' ∧ hasIdColon cs
      · obtain ⟨hc, hid⟩ := hcond
        cases hsp : splitAtClose (cs.drop 3) with
        | none =>
          rw [scanTokens_cons_noClose hsp] at hx
          obtain ⟨pre, post, he, hne, hnb⟩ := ih cs hcs x hx
          exact ⟨c :: pre, post, by simp [he], hne, hnb⟩
        | some pr =>
          obtain ⟨t, r⟩ := pr
          by_cases ht : t = []
          · subst ht
            rw [scanTokens_cons_emptyTok hsp] at hx
            obtain ⟨pre, post, he, hne, hnb⟩ := ih cs hcs x hx
            exact ⟨c :: pre, post, by simp [he], hne, hnb⟩
          · subst hc
            rw [scanTokens_cons_marker hid hsp ht] at hx
            have hshape : cs = 'i' :: 'd' :: ':' :: cs.drop 3 := hasIdColon_shape hid
            have hdrop : cs.drop 3 = t ++ '}' :: r := (splitAtClose_spec hsp).1
            have hfull : '{' :: cs = mkMarker t ++ r := by
              rw [hshape, hdrop]; simp [mkMarker]
            rcases List.mem_cons.mp hx with hxe | hxr
            · subst hxe
              exact ⟨[], r, by simpa using hfull, ht, (splitAtClose_spec hsp).2⟩
            · have hr : r.length ≤ n := by
                have h1 := congrArg List.length hshape
                have h2 := congrArg List.length hdrop
                simp at h1 h2
                omega
              obtain ⟨pre, post, he, hne, hnb⟩ := ih r hr x hxr
              refine ⟨mkMarker t ++ pre, post, ?_, hne, hnb⟩
              rw [hfull, he]
              simp
      · rw [scanTokens_cons_skip hcond] at hx
        obtain ⟨pre, post, he, hne, hnb⟩ := ih cs hcs x hx
        exact ⟨c :: pre, post, by simp [he], hne, hnb⟩

theorem scanTokens_buildDesc {ps : List (List Char × List Char)}
    {epilog : List Char} (hp : ∀ p ∈ ps, '{' ∉ p.1 ∧ p.2 ≠ [] ∧ '}' ∉ p.2)
    (he : '{' ∉ epilog) :
    scanTokens (buildDesc ps epilog) = ps.map Prod.snd := by
  induction ps with
  | nil =>
    have : scanTokens (epilog ++ []) = scanTokens [] := scanTokens_append_inert [] he
    simpa [buildDesc] using this
  | cons p ps ih =>
    obtain ⟨u, t⟩ := p
    obtain ⟨hu, ht, hb⟩ := hp (u, t) (List.mem_cons_self _ _)
    have hps : ∀ q ∈ ps, '{' ∉ q.1 ∧ q.2 ≠ [] ∧ '}' ∉ q.2 :=
      fun q hq => hp q (List.mem_cons_of_mem _ hq)
    rw [buildDesc, scanTokens_append_inert _ hu, scanTokens_marker_append _ ht hb,
      ih hps]
    rfl

/-! Claim theorems. -/

/-- C1 (amended): soundness and round-trip completeness of the question-id
extraction of handleGradeSubmissions.  Every extracted identifier is the
trimmed token of a conforming marker substring of the description; and any
description interleaving open-brace-free text with markers whose tokens are
nonempty and free of closing braces is parsed back to exactly the trimmed
token of every marker, in order.  Over arbitrary descriptions the original
claim fails: when conforming marker substrings overlap — a marker token that
itself contains a marker — the non-overlapping regex scan misses the inner
identifier. -/
theorem extractQuestionIds_correct :
    (∀ (desc : Option (List Char)) (x : List Char), x ∈ extractQuestionIds desc →
      ∃ d pre t post, desc = some d ∧ d = pre ++ mkMarker t ++ post ∧
        t ≠ [] ∧ '}' ∉ t ∧ x = trimChars t) ∧
    (∀ (ps : List (List Char × List Char)) (epilog : List Char),
      (∀ p ∈ ps, '{' ∉ p.1 ∧ p.2 ≠ [] ∧ '}' ∉ p.2) → '{' ∉ epilog →
      extractQuestionIds (some (buildDesc ps epilog)) =
        ps.map fun p => trimChars p.2) := by
  constructor
  · intro desc x hx
    match desc with
    | none => simp [extractQuestionIds] at hx
    | some d =>
      by_cases hd : d.isEmpty
      · simp [extractQuestionIds, hd] at hx
      · simp only [extractQuestionIds, if_neg hd, List.mem_map] at hx
        obtain ⟨y, hy, hxy⟩ := hx
        obtain ⟨pre, post, he, hne, hnb⟩ :=
          scanTokens_sound_aux d.length d (Nat.le_refl _) y hy
        exact ⟨d, pre, y, post, rfl, he, hne, hnb, hxy.symm⟩
  · intro ps epilog hp he
    by_cases hd : (buildDesc ps epilog).isEmpty
    · have hd' : buildDesc ps epilog = [] := List.isEmpty_iff.mp hd
      have h0 : ps.map Prod.snd = [] := by
        rw [← scanTokens_buildDesc hp he, hd']
        rfl
      have hps : ps = [] := by simpa using h0
      subst hps
      simp only [buildDesc] at hd'
      subst hd'
      rfl
    · simp only [extractQuestionIds, if_neg hd]
      rw [scanTokens_buildDesc hp he, List.map_map]
      rfl

/-- Witness for C1 at a concrete description: free text around two markers,
the second with padding whitespace inside the braces, parses back to exactly
the two trimmed identifiers. -/
theorem extractQuestionIds_correct_witness :
    (∀ p ∈ ([(['Q', '1', ' '], ['a', 'b', 'c']), ([' ', '&', ' '], [' ', 'x', '7', ' '])] :
        List (List Char × List Char)), '{' ∉ p.1 ∧ p.2 ≠ [] ∧ '}' ∉ p.2) ∧
    extractQuestionIds (some (buildDesc
        [(['Q', '1', ' '], ['a', 'b', 'c']), ([' ', '&', ' '], [' ', 'x', '7', ' '])]
        ['.'])) = [['a', 'b', 'c'], ['x', '7']] :=
  ⟨by decide, by
    rw [extractQuestionIds_correct.2 _ _ (by decide) (by decide)]
    decide⟩

/-- C1 as frozen is refuted: in a description that is an outer marker whose
token itself contains a marker, the inner substring conforms to the marker
grammar with identifier b, yet the extraction does not produce b — the
leftmost regex match swallows it. -/
theorem extractQuestionIds_missesNested :
    (['b'] : List Char) ≠ [] ∧ '}' ∉ (['b'] : List Char) ∧
    trimChars ['b'] ∉ extractQuestionIds
      (some (['{', 'i', 'd', ':', ' ', 'a'] ++ mkMarker ['b'] ++ [])) := by
  decide

/-- C2: handleGradeSubmissions falls back to the fuzzy title lookup exactly
when zero marker ids were extracted from the description; with at least one
extracted id the by-id lookup runs on those ids and the fuzzy lookup never
does. -/
theorem questionLookup_fuzzyIffNoMarkers :
    ∀ (description : Option (List Char)) (title : List Char),
      (questionLookup description title = .fuzzyTitle title ↔
        extractQuestionIds description = []) ∧
      (extractQuestionIds description ≠ [] →
        questionLookup description title = .byIds (extractQuestionIds description)) := by
  intro description title
  constructor
  · constructor
    · intro hfz
      by_contra hne
      have hlen : (extractQuestionIds description).length > 0 := List.length_pos.mpr hne
      simp [questionLookup, hlen] at hfz
    · intro he
      simp [questionLookup, he]
  · intro hne
    have hlen : (extractQuestionIds description).length > 0 := List.length_pos.mpr hne
    simp [questionLookup, hlen]

/-- Witness for C2 at a description holding one marker: the by-id lookup is
chosen. -/
theorem questionLookup_fuzzyIffNoMarkers_witness :
    extractQuestionIds (some (mkMarker ['q', '1'])) ≠ [] ∧
    questionLookup (some (mkMarker ['q', '1'])) ['T'] =
      .byIds (extractQuestionIds (some (mkMarker ['q', '1']))) :=
  ⟨by decide,
    (questionLookup_fuzzyIffNoMarkers (some (mkMarker ['q', '1'])) ['T']).2 (by decide)⟩

/-- C3: checkAuthStatus authenticates precisely when the cookie check reports
logged_in or, failing that, a stored session token verifies as logged_in; a
successful cookie check never consults the token and leaves storage alone,
and a stored token failing verification after a failed cookie check is
removed with the final state anonymous. -/
theorem checkAuthStatus_correct :
    ∀ e : AuthEnv,
      ((checkAuthStatus e).isAuthenticated = true ↔
        (e.cookieOk ∧ e.cookieLoggedIn) ∨
          (∃ tok, e.storedToken = some tok ∧ e.tokenOk ∧ e.tokenLoggedIn)) ∧
      (e.cookieOk ∧ e.cookieLoggedIn →
        (checkAuthStatus e).tokenConsulted = false ∧
        (checkAuthStatus e).tokenAfter = e.storedToken) ∧
      (¬(e.cookieOk ∧ e.cookieLoggedIn) → ∀ tok, e.storedToken = some tok →
        ¬(e.tokenOk ∧ e.tokenLoggedIn) →
        checkAuthStatus e =
          { isAuthenticated := false, tokenAfter := none, tokenConsulted := true }) := by
  intro e
  obtain ⟨cOk, cLi, sTok, tOk, tLi⟩ := e
  cases sTok <;> cases cOk <;> cases cLi <;> cases tOk <;> cases tLi <;>
    simp [checkAuthStatus]

/-- Witness for C3: failed cookie check plus a stored token that fails
verification ends anonymous with the token dropped. -/
theorem checkAuthStatus_correct_witness :
    checkAuthStatus ⟨false, false, some ['t'], false, false⟩ =
      { isAuthenticated := false, tokenAfter := none, tokenConsulted := true } :=
  (checkAuthStatus_correct ⟨false, false, some ['t'], false, false⟩).2.2
    (by decide) ['t'] rfl (by decide)

theorem applyGradeResults_cons {α : Type} (rs : List (GradeEntry α))
    (s : Submission α) (ss : List (Submission α)) :
    applyGradeResults rs (s :: ss) =
      (match rs.find? (fun r => r.submission_id == s.id) with
        | some g => { s with aiGrade := some g.grading_result, isGraded := true }
        | none => s) :: applyGradeResults rs ss := rfl

/-- C4: the merge of grading results into the submissions list is idempotent —
running it twice with the same results equals running it once — and a matched
submission's previous aiGrade and isGraded are overwritten by the matching
entry, never accumulated. -/
theorem applyGradeResults_idem :
    ∀ {α : Type} (rs : List (GradeEntry α)),
      (∀ subs : List (Submission α),
        applyGradeResults rs (applyGradeResults rs subs) = applyGradeResults rs subs) ∧
      (∀ (s : Submission α) (g : Option α) (b : Bool) (r : GradeEntry α),
        rs.find? (fun e => e.submission_id == s.id) = some r →
        applyGradeResults rs [{ s with aiGrade := g, isGraded := b }] =
          [{ s with aiGrade := some r.grading_result, isGraded := true }]) := by
  intro α rs
  constructor
  · intro subs
    induction subs with
    | nil => rfl
    | cons s ss ih =>
      cases hfind : rs.find? (fun r => r.submission_id == s.id) with
      | none => simp [applyGradeResults_cons, hfind, ih]
      | some g => simp [applyGradeResults_cons, hfind, ih]
  · intro s g b r hfind
    have hid : ({ s with aiGrade := g, isGraded := b } : Submission α).id = s.id := rfl
    rw [applyGradeResults_cons, hid, hfind]
    rfl

/-- Witness for C4: an already-graded submission regraded with a different
result carries only the new grade. -/
theorem applyGradeResults_idem_witness :
    applyGradeResults [(⟨['s'], 2⟩ : GradeEntry Nat)]
        [{ (⟨['s'], ['p'], none, false⟩ : Submission Nat) with
            aiGrade := some 1, isGraded := true }] =
      [{ (⟨['s'], ['p'], none, false⟩ : Submission Nat) with
          aiGrade := some 2, isGraded := true }] :=
  (applyGradeResults_idem [(⟨['s'], 2⟩ : GradeEntry Nat)]).2
    ⟨['s'], ['p'], none, false⟩ (some 1) true ⟨['s'], 2⟩ (by decide)

theorem find?_eq_of_perm {α : Type} {rs rs' : List (GradeEntry α)}
    (hperm : rs.Perm rs') (hnd : (rs.map GradeEntry.submission_id).Nodup)
    (k : List Char) :
    rs.find? (fun r => r.submission_id == k) =
      rs'.find? (fun r => r.submission_id == k) := by
  cases hfind : rs.find? (fun r => r.submission_id == k) with
  | none =>
    have hall := List.find?_eq_none.mp hfind
    symm
    exact List.find?_eq_none.mpr fun x hx => hall x (hperm.mem_iff.mpr hx)
  | some a =>
    have ha : a ∈ rs := List.mem_of_find?_eq_some hfind
    have hpa : a.submission_id = k := by
      have := List.find?_some hfind
      simpa using this
    cases hfind' : rs'.find? (fun r => r.submission_id == k) with
    | none =>
      have hall := List.find?_eq_none.mp hfind'
      have := hall a (hperm.mem_iff.mp ha)
      simp [hpa] at this
    | some b =>
      have hb : b ∈ rs := hperm.mem_iff.mpr (List.mem_of_find?_eq_some hfind')
      have hpb : b.submission_id = k := by
        have := List.find?_some hfind'
        simpa using this
      have hab : a = b :=
        List.inj_on_of_nodup_map hnd ha hb (by rw [hpa, hpb])
      rw [hab]

/-- C5 (amended): when the grading results carry pairwise distinct
submission ids — as a grading batch produces, one result per submission — the
merged submissions state is invariant under any permutation of the results
list: matching is by identifier, not by position.  Without that restriction
the claim fails, since the merge takes the first of two entries sharing an
id. -/
theorem applyGradeResults_permInvariant :
    ∀ {α : Type} (rs rs' : List (GradeEntry α)) (subs : List (Submission α)),
      rs.Perm rs' → (rs.map GradeEntry.submission_id).Nodup →
      applyGradeResults rs subs = applyGradeResults rs' subs := by
  intro α rs rs' subs hperm hnd
  simp only [applyGradeResults]
  congr 1
  funext submission
  rw [find?_eq_of_perm hperm hnd]

/-- Witness for C5: swapping two results with distinct submission ids leaves
the merged state unchanged. -/
theorem applyGradeResults_permInvariant_witness :
    applyGradeResults [(⟨['a'], 1⟩ : GradeEntry Nat), ⟨['b'], 2⟩]
        [⟨['b'], [], none, false⟩] =
      applyGradeResults [⟨['b'], 2⟩, ⟨['a'], 1⟩] [⟨['b'], [], none, false⟩] :=
  applyGradeResults_permInvariant _ _ _
    (List.Perm.swap (⟨['b'], 2⟩ : GradeEntry Nat) ⟨['a'], 1⟩ []) (by decide)

/-- C5 as frozen is refuted: with two grading results sharing a submission_id
the merged state depends on their order, because the merge takes the first
matching entry. -/
theorem applyGradeResults_orderDependent :
    (([⟨['s'], 1⟩, ⟨['s'], 2⟩] : List (GradeEntry Nat)).Perm
      [⟨['s'], 2⟩, ⟨['s'], 1⟩]) ∧
    applyGradeResults [(⟨['s'], 1⟩ : GradeEntry Nat), ⟨['s'], 2⟩]
        [⟨['s'], [], none, false⟩] ≠
      applyGradeResults [⟨['s'], 2⟩, ⟨['s'], 1⟩] [⟨['s'], [], none, false⟩] :=
  ⟨List.Perm.swap (⟨['s'], 2⟩ : GradeEntry Nat) ⟨['s'], 1⟩ [], by decide⟩

/-- C6: a question resolution with a non-success status, a missing questions
field, or an empty question list makes handleGradeSubmissions throw the
user-facing no-questions error and never reach the grading endpoint; the
grading request is issued only for a success status carrying a nonempty
list. -/
theorem gradeSubmissionsStep_guards :
    ∀ {α : Type} (qd : QuestionsResponse α),
      ((qd.status ≠ "success" ∨ qd.questions = none ∨ qd.questions = some []) →
        gradeSubmissionsStep qd = .errorMsg noQuestionsMsg ∧
          ∀ qs, gradeSubmissionsStep qd ≠ .gradeRequest qs) ∧
      (∀ qs, gradeSubmissionsStep qd = .gradeRequest qs →
        qd.status = "success" ∧ qd.questions = some qs ∧ qs ≠ []) := by
  intro α qd
  obtain ⟨st, qopt⟩ := qd
  by_cases hst : st = "success"
  · subst hst
    cases qopt with
    | none => simp [gradeSubmissionsStep]
    | some qs =>
      by_cases hq : qs = []
      · subst hq
        simp [gradeSubmissionsStep]
      · simp [gradeSubmissionsStep, hq, List.length_eq_zero]
  · simp [gradeSubmissionsStep, hst]

/-- Witness for C6: a success status with an empty question list throws and
issues no grading request. -/
theorem gradeSubmissionsStep_guards_witness :
    gradeSubmissionsStep (⟨"success", some []⟩ : QuestionsResponse Nat) =
      .errorMsg noQuestionsMsg ∧
    gradeSubmissionsStep (⟨"success", some []⟩ : QuestionsResponse Nat) ≠
      .gradeRequest [7] :=
  ⟨((gradeSubmissionsStep_guards ⟨"success", some []⟩).1 (Or.inr (Or.inr rfl))).1,
    ((gradeSubmissionsStep_guards ⟨"success", some []⟩).1 (Or.inr (Or.inr rfl))).2 [7]⟩

/-- C7: the Total Marks figure AssignmentModal advertises for publication
equals the sum of the marks of all listed questions, a missing marks field
contributing zero. -/
theorem totalMarks_eq_sum :
    ∀ qs : List PublishQuestion,
      totalMarks qs = (qs.map fun q => q.marks.getD 0).sum := by
  have key : ∀ (l : List PublishQuestion) (n : Nat),
      l.foldl (fun sum q => sum + q.marks.getD 0) n =
        n + (l.map fun q => q.marks.getD 0).sum := by
    intro l
    induction l with
    | nil => intro n; simp
    | cons q l ih =>
      intro n
      simp only [List.foldl_cons, List.map_cons, List.sum_cons, ih]
      omega
  intro qs
  simpa using key qs 0

theorem updateAt_getElem?_ne {α : Type} :
    ∀ (l : List α) (i j : Nat) (f : α → α), j ≠ i →
      (updateAt i f l)[j]? = l[j]? := by
  intro l
  induction l with
  | nil => intro i j f _; cases i <;> simp [updateAt]
  | cons x xs ih =>
    intro i j f h
    match i, j with
    | 0, 0 => exact absurd rfl h
    | 0, j + 1 => simp [updateAt]
    | i + 1, 0 => simp [updateAt]
    | i + 1, j + 1 =>
      simp only [updateAt, List.getElem?_cons_succ]
      exact ih i j f fun e => h (by rw [e])

theorem updateAt_getElem?_self {α : Type} :
    ∀ (l : List α) (i : Nat) (f : α → α),
      (updateAt i f l)[i]? = (l[i]?).map f := by
  intro l
  induction l with
  | nil => intro i f; cases i <;> simp [updateAt]
  | cons x xs ih =>
    intro i f
    match i with
    | 0 => simp [updateAt]
    | i + 1 =>
      simp only [updateAt, List.getElem?_cons_succ]
      exact ih i f

/-- C8: handleAuthError returns true, clears local storage and redirects to
the login page exactly on a 401 response; any other status returns false and
leaves the stored state untouched, and authFetch throws Session expired on a
401 while returning any other response unmodified. -/
theorem handleAuthError_iff401 :
    ∀ (resp : HttpResponse) (st : ClientState),
      (handleAuthError resp st =
          (true, { storage := [], href := "/" }) ↔ resp.status = 401) ∧
      (resp.status ≠ 401 → handleAuthError resp st = (false, st)) ∧
      (resp.status = 401 → authFetch resp st = .error "Session expired") ∧
      (resp.status ≠ 401 → authFetch resp st = .ok (resp, st)) := by
  intro resp st
  by_cases h : resp.status = 401 <;> simp [handleAuthError, authFetch, h]

/-- Witness for C8: a 401 makes authFetch throw, and a 200 passes the
response through with storage intact. -/
theorem handleAuthError_iff401_witness :
    authFetch ⟨401, ""⟩ ⟨[("session_token", "t")], "/home"⟩ =
        .error "Session expired" ∧
    authFetch ⟨200, "ok"⟩ ⟨[("session_token", "t")], "/home"⟩ =
        .ok (⟨200, "ok"⟩, ⟨[("session_token", "t")], "/home"⟩) :=
  ⟨(handleAuthError_iff401 ⟨401, ""⟩ ⟨[("session_token", "t")], "/home"⟩).2.2.1 rfl,
    (handleAuthError_iff401 ⟨200, "ok"⟩ ⟨[("session_token", "t")], "/home"⟩).2.2.2
      (by decide)⟩

/-- C9: the per-index regeneration and custom-input handlers touch only their
index: every entry at another index is unchanged in both the success and the
failure case; on failure the entry itself keeps its previous content with
only the loading flag cleared, and on success only that entry is replaced by
the new question with its loading flag cleared. -/
theorem regenerationFrame :
    ∀ (qs : List GenQuestion) (i j : Nat) (res : Option GenQuestion),
      (j ≠ i → (handleGenerateAgainAt qs i res)[j]? = qs[j]? ∧
        (handleCustomQuestionSubmitAt qs i res)[j]? = qs[j]?) ∧
      ((handleGenerateAgainAt qs i none)[i]? = (qs[i]?).map (setLoading false) ∧
        (handleCustomQuestionSubmitAt qs i none)[i]? =
          (qs[i]?).map (setLoading false)) ∧
      (∀ newQ, res = some newQ → i < qs.length →
        (handleGenerateAgainAt qs i res)[i]? = some (setLoading false newQ) ∧
        (handleCustomQuestionSubmitAt qs i res)[i]? =
          some (setLoading false newQ)) := by
  intro qs i j res
  refine ⟨fun hne => ?_, ⟨?_, ?_⟩, fun newQ hres hlt => ?_⟩
  · cases res <;>
      simp [handleGenerateAgainAt, handleCustomQuestionSubmitAt,
        updateAt_getElem?_ne _ _ _ _ hne]
  · rw [handleGenerateAgainAt]
    simp only [updateAt_getElem?_self, Option.map_map]
    cases h : qs[i]? with
    | none => rfl
    | some q => rfl
  · rw [handleCustomQuestionSubmitAt]
    simp only [updateAt_getElem?_self, Option.map_map]
    cases h : qs[i]? with
    | none => rfl
    | some q => rfl
  · subst hres
    have hsome : ∃ q, qs[i]? = some q := by
      rw [List.getElem?_eq_getElem hlt]
      exact ⟨_, rfl⟩
    obtain ⟨q, hq⟩ := hsome
    constructor <;>
      simp [handleGenerateAgainAt, handleCustomQuestionSubmitAt,
        updateAt_getElem?_self, hq]

/-- Witness for C9: regenerating index 0 of a two-question list, failing,
clears only that loading flag; the other entry is untouched. -/
theorem regenerationFrame_witness :
    (handleGenerateAgainAt
        [⟨"q0", 5, none, true⟩, ⟨"q1", 3, some ["r"], false⟩] 0 none)[1]? =
      some ⟨"q1", 3, some ["r"], false⟩ ∧
    (handleGenerateAgainAt
        [⟨"q0", 5, none, true⟩, ⟨"q1", 3, some ["r"], false⟩] 0 none)[0]? =
      some ⟨"q0", 5, none, false⟩ :=
  ⟨by
    have h := (regenerationFrame
      [⟨"q0", 5, none, true⟩, ⟨"q1", 3, some ["r"], false⟩] 0 1 none).1
      (by decide)
    rw [h.1]
    decide,
  by
    have h := (regenerationFrame
      [⟨"q0", 5, none, true⟩, ⟨"q1", 3, some ["r"], false⟩] 0 1 none).2.1
    rw [h.1]
    decide⟩

theorem allHaveRubrics_iff (qs : List GenQuestion) :
    allHaveRubrics qs = true ↔ ∀ q ∈ qs, ∃ rs, q.rubrics = some rs ∧ rs ≠ [] := by
  rw [allHaveRubrics, List.all_eq_true]
  constructor
  · intro h q hq
    have := h q hq
    cases hr : q.rubrics with
    | none => rw [hr] at this; simp at this
    | some rs =>
      rw [hr] at this
      simp only [decide_eq_true_eq] at this
      exact ⟨rs, rfl, List.length_pos.mp this⟩
  · intro h q hq
    obtain ⟨rs, hrs, hne⟩ := h q hq
    rw [hrs]
    simpa using List.length_pos.mpr hne

/-- C10: handleProceed issues the store-questions request exactly when every
question carries a non-empty rubric list; when some rubrics field is null or
empty, no request is issued and the question list and all publish state are
left exactly as they were. -/
theorem handleProceed_rubricGuard :
    ∀ (st : PublishState) (resp : StoreResponse),
      ((handleProceed st resp).1 ≠ none ↔
        ∀ q ∈ st.assignmentQuestions, ∃ rs, q.rubrics = some rs ∧ rs ≠ []) ∧
      (¬(∀ q ∈ st.assignmentQuestions, ∃ rs, q.rubrics = some rs ∧ rs ≠ []) →
        handleProceed st resp = (none, st)) := by
  intro st resp
  by_cases hall : allHaveRubrics st.assignmentQuestions
  · have hforall := (allHaveRubrics_iff st.assignmentQuestions).mp hall
    constructor
    · rw [iff_true_right hforall]
      rw [handleProceed, if_pos hall]
      by_cases hok : resp.ok
      · cases hsq : resp.stored_questions with
        | none => simp [hok]
        | some stored => by_cases hs : resp.status = "success" <;> simp [hok, hs]
      · simp [hok]
    · intro hno
      exact absurd hforall hno
  · have hno : ¬∀ q ∈ st.assignmentQuestions, ∃ rs, q.rubrics = some rs ∧ rs ≠ [] :=
      fun h => hall ((allHaveRubrics_iff st.assignmentQuestions).mpr h)
    rw [handleProceed, if_neg hall]
    constructor
    · simp [hno]
    · intro _; rfl

/-- Witness for C10: with one question still lacking rubrics, no request goes
out and the state is untouched. -/
theorem handleProceed_rubricGuard_witness :
    handleProceed
        ⟨[⟨"q0", 5, none, false⟩], [], false⟩ ⟨true, "success", some []⟩ =
      (none, ⟨[⟨"q0", 5, none, false⟩], [], false⟩) :=
  (handleProceed_rubricGuard ⟨[⟨"q0", 5, none, false⟩], [], false⟩
      ⟨true, "success", some []⟩).2
    (by
      intro h
      obtain ⟨rs, hrs, _⟩ := h ⟨"q0", 5, none, false⟩ (List.mem_cons_self _ _)
      simp at hrs)

end GCAgent
